import Mathlib

/-!
# Verification of the event-matchmaking backend (`maker`)

A shallow embedding of the matching engine and its state machine,
translated from `backend/app/routers/matching.py` (and the event-code
handling of `backend/app/routers/events.py`), together with theorems
settling the specification claims.

Modelling conventions:
* Python dicts keyed by strings are association lists `List (String × String)`
  with first-binding lookup; dict assignment is overwrite-in-place-or-append.
* Similarity scores (Python `int / int` float division on small operands)
  are modelled as exact rationals `ℚ`.
* The external store is a record of tables (lists of rows); HTTP handlers
  are functions `DB → ... → Except HTTPError result`.
* A `NULL` column of the store is an `Option` field that is `none`.
-/

namespace Maker

/-- A row of the `responses` table restricted to one guest: the per-guest
answer dict `question_id ↦ answer` built by `run_matching` (lines 81–90). -/
abbrev RespMap := List (String × String)

/-- `calculate_similarity` (matching.py lines 12–29): if either answer dict
is empty return 0; otherwise take the set of common question ids; if empty
return 0; otherwise the fraction of common questions answered identically. -/
def calculate_similarity (responses_a responses_b : RespMap) : ℚ :=
  if responses_a.isEmpty || responses_b.isEmpty then 0
  else
    let common_questions :=
      ((responses_a.map Prod.fst).filter
        (fun q => (responses_b.map Prod.fst).contains q)).dedup
    if common_questions.isEmpty then 0
    else
      let matched := common_questions.countP
        (fun q => responses_a.lookup q == responses_b.lookup q)
      (matched : ℚ) / (common_questions.length : ℚ)

/-- Spec-side: the set of question ids present in both maps
(`C` in the specification of the Similarity Scorer). -/
def sharedQuestions (a b : RespMap) : Finset String :=
  (a.map Prod.fst).toFinset ∩ (b.map Prod.fst).toFinset

/-- Spec-side: the number of common questions whose answers are exactly
equal (`count of q in C where responsesA[q] == responsesB[q]`). -/
def agreeCount (a b : RespMap) : ℕ :=
  ((sharedQuestions a b).filter
    (fun q => a.lookup q = b.lookup q)).card

/-- A guest row as selected by `run_matching`
(`id, nickname, gender, looking_for`) together with the `event_id` column
used by the guest queries. A store `NULL` (absent optional profile field)
is `none`. -/
structure Guest where
  id : String
  event_id : String
  nickname : String
  gender : Option String
  looking_for : Option String
deriving DecidableEq

/-- `is_compatible` (matching.py lines 92–107), with the event's
`matching_mode` as an explicit parameter (the source reads it from the
enclosing scope).  Outside `preference_based` mode every pair is
compatible.  Otherwise the source reads
`guest.get("looking_for", "any")` — but the store row always carries
every selected column, a NULL value included, so the `"any"` default
never fires and the compared value is the possibly-`None` column itself:
in Python `None == "any"` is false and `None == None` is true, which the
`Option String` comparisons below reproduce. -/
def is_compatible (matching_mode : String) (guest_a guest_b : Guest) : Bool :=
  if matching_mode != "preference_based" then true
  else
    let a_looking := guest_a.looking_for
    let b_looking := guest_b.looking_for
    let a_matches_b := a_looking == some "any" || a_looking == guest_b.gender
    let b_matches_a := b_looking == some "any" || b_looking == guest_a.gender
    a_matches_b && b_matches_a

/-- Claim-side (the spec's words, which the code does not implement —
see the C2 counterexample): a guest's effective preference
(`aWants = guestA.looking_for or "any"`). -/
def wantsOf (g : Guest) : String := g.looking_for.getD "any"

/-- Spec-side: preference `w` accepts a counterpart of optional gender `g`:
either `w = "any"` or the gender is present and equals `w`; in particular
a missing gender is non-matching unless the preference is `"any"`. -/
def acceptsGender (w : String) (g : Option String) : Prop :=
  w = "any" ∨ ∃ x, g = some x ∧ w = x

/-- Claim-side Preference Filter, as the claim states it (with the
defaulting semantics): outside `preference_based` mode the condition is
vacuous, otherwise both directions must accept. -/
def compatibleSpec (mode : String) (a b : Guest) : Prop :=
  mode = "preference_based" →
    acceptsGender (wantsOf a) b.gender ∧ acceptsGender (wantsOf b) a.gender

/-- Amended-claim side: how the code's comparison chain treats a
`looking_for` value against a counterpart's optional gender: a present
`"any"` accepts anything; another present value accepts exactly a
counterpart whose gender is present and equal to it; a NULL `looking_for`
accepts exactly a counterpart whose gender is also NULL. -/
def acceptsCode : Option String → Option String → Prop
  | some w, g => w = "any" ∨ g = some w
  | none, g => g = none

/-- `itertools.combinations(l, 2)`: all index-ordered pairs of a list, in
Python's enumeration order. -/
def combinations2 {α : Type} : List α → List (α × α)
  | [] => []
  | x :: xs => (xs.map (fun y => (x, y))) ++ combinations2 xs

/-- The `similarities` dict of `run_matching`, keyed by ordered id pairs. -/
abbrev SimTable := List ((String × String) × ℚ)

/-- Python tuple equality on id pairs. -/
def keyBeq (a b : String × String) : Bool := a.1 == b.1 && a.2 == b.2

/-- Python dict membership (`key in d`). -/
def hasKey (d : SimTable) (k : String × String) : Bool :=
  d.any (fun e => keyBeq e.1 k)

/-- Python dict assignment `d[k] = v`: overwrite in place, or append a
fresh binding at the end. -/
def dictAssign (d : SimTable) (k : String × String) (v : ℚ) : SimTable :=
  if hasKey d k then d.map (fun e => if keyBeq e.1 k then (k, v) else e)
  else d ++ [(k, v)]

/-- Python dict read `d[k]` under a prior `k in d` guard (the `0` default is
never reached where the source reads the dict). -/
def dictGet (d : SimTable) (k : String × String) : ℚ :=
  ((d.find? (fun e => keyBeq e.1 k)).map Prod.snd).getD 0

/-- The body of the first pair loop of `run_matching` (lines 111–118): a
compatible combination pair stores its score under both orientations of
the id pair. -/
def simStep (mode : String) (resp : String → RespMap)
    (d : SimTable) (p : Guest × Guest) : SimTable :=
  if is_compatible mode p.1 p.2 then
    let score := calculate_similarity (resp p.1.id) (resp p.2.id)
    dictAssign (dictAssign d (p.1.id, p.2.id) score) (p.2.id, p.1.id) score
  else d

/-- The `similarities` dict built by `run_matching` (lines 109–118). -/
def buildSimilarities (mode : String) (resp : String → RespMap)
    (guests : List Guest) : SimTable :=
  (combinations2 guests).foldl (simStep mode resp) []

/-- The body of the second pair loop of `run_matching` (lines 126–129):
keep the pairs whose key is present in the `similarities` dict. -/
def pairStep (similarities : SimTable)
    (acc : List (String × String × ℚ)) (p : Guest × Guest) :
    List (String × String × ℚ) :=
  if hasKey similarities (p.1.id, p.2.id) then
    acc ++ [(p.1.id, p.2.id, dictGet similarities (p.1.id, p.2.id))]
  else acc

/-- The `all_pairs` list of `run_matching` before sorting (lines 124–130). -/
def all_pairs (mode : String) (resp : String → RespMap)
    (guests : List Guest) : List (String × String × ℚ) :=
  (combinations2 guests).foldl (pairStep (buildSimilarities mode resp guests)) []

/-- One insertion step of a stable descending insertion sort on the score
component: the element goes before the first entry of score ≤ its own. -/
def insertScoreDesc (x : String × String × ℚ) :
    List (String × String × ℚ) → List (String × String × ℚ)
  | [] => [x]
  | y :: ys => if y.2.2 ≤ x.2.2 then x :: y :: ys else y :: insertScoreDesc x ys

/-- Stable descending sort on the score component — extensionally Python's
stable `all_pairs.sort(key=lambda x: x[2], reverse=True)` (line 131). -/
def sortScoreDesc : List (String × String × ℚ) → List (String × String × ℚ)
  | [] => []
  | x :: xs => insertScoreDesc x (sortScoreDesc xs)

/-- The ranked pair list of `run_matching` (lines 109–131). -/
def rankedPairs (mode : String) (resp : String → RespMap)
    (guests : List Guest) : List (String × String × ℚ) :=
  sortScoreDesc (all_pairs mode resp guests)

/-- Spec-side Pair Ranker pre-sort contract: every combination pair that
passes the compatibility check as implemented (`is_compatible`), scored
by the Similarity Scorer, in the original enumeration order of guest
pairs. -/
def compatScored (mode : String) (resp : String → RespMap)
    (guests : List Guest) : List (String × String × ℚ) :=
  ((combinations2 guests).filter (fun p => is_compatible mode p.1 p.2)).map
    (fun p => (p.1.id, p.2.id, calculate_similarity (resp p.1.id) (resp p.2.id)))

/-- The flat contents the `similarities` dict ends up with when no key is
ever written twice. -/
def simEntries (mode : String) (resp : String → RespMap) :
    List (Guest × Guest) → SimTable
  | [] => []
  | p :: ps =>
    if is_compatible mode p.1 p.2 then
      ((p.1.id, p.2.id), calculate_similarity (resp p.1.id) (resp p.2.id)) ::
      ((p.2.id, p.1.id), calculate_similarity (resp p.1.id) (resp p.2.id)) ::
      simEntries mode resp ps
    else simEntries mode resp ps

/-- Two guest pairs name different unordered id pairs. -/
def idDisjoint (p q : Guest × Guest) : Prop :=
  ¬((p.1.id = q.1.id ∧ p.2.id = q.2.id) ∨ (p.1.id = q.2.id ∧ p.2.id = q.1.id))

/-- Concrete guest fixtures for the witness theorems. -/
def exGuests : List Guest :=
  [⟨"g1", "e1", "Ann", some "female", some "male"⟩,
   ⟨"g2", "e1", "Ben", some "male", some "any"⟩,
   ⟨"g3", "e1", "Cal", none, none⟩]

/-- Concrete per-guest response maps for the witness theorems. -/
def exResp : String → RespMap := fun gid =>
  if gid = "g1" then [("q1", "x"), ("q2", "y")]
  else if gid = "g2" then [("q1", "x"), ("q2", "z")]
  else [("q1", "w")]

/-- One iteration of the greedy loop of `run_matching` (lines 133–143): the
state is the `match_count` dict (total over ids; `run_matching` only ever
reads ids initialised to 0) and the `matches_to_insert` list.  A pair is
accepted iff both endpoints' counters are below `matches_per_guest`, and on
acceptance both counters are incremented. -/
def greedyStep (matches_per_guest : ℕ)
    (st : (String → ℕ) × List (String × String × ℚ))
    (p : String × String × ℚ) :
    (String → ℕ) × List (String × String × ℚ) :=
  if st.1 p.1 < matches_per_guest ∧ st.1 p.2.1 < matches_per_guest then
    let cnt1 := fun gid => if gid = p.1 then st.1 gid + 1 else st.1 gid
    let cnt2 := fun gid => if gid = p.2.1 then cnt1 gid + 1 else cnt1 gid
    (cnt2, st.2 ++ [p])
  else st

/-- The accepted pairs of the greedy loop of `run_matching`
(lines 120–143), iterating the ranked pairs in order with all counters
starting at 0. -/
def greedyAssign (matches_per_guest : ℕ)
    (pairs : List (String × String × ℚ)) : List (String × String × ℚ) :=
  (pairs.foldl (greedyStep matches_per_guest) (fun _ => 0, [])).2

/-- Spec-side: how often `gid` occurs as an endpoint of the accepted pairs
(a degenerate pair with both endpoints equal counts twice, mirroring the
double increment). -/
def endpointCount (acc : List (String × String × ℚ)) (gid : String) : ℕ :=
  acc.countP (fun p => decide (p.1 = gid)) +
    acc.countP (fun p => decide (p.2.1 = gid))

/-- Spec-side: the number of accepted pairs having `gid` as an endpoint. -/
def pairsContaining (acc : List (String × String × ℚ)) (gid : String) : ℕ :=
  acc.countP (fun p => decide (p.1 = gid ∨ p.2.1 = gid))

/-- Spec-side Greedy Assignment Engine: iterate the ranked pairs in the
given order and accept a pair iff both endpoints occur fewer than
`cap` times as endpoints of the previously accepted pairs. -/
def greedySpec (cap : ℕ) (acc : List (String × String × ℚ)) :
    List (String × String × ℚ) → List (String × String × ℚ)
  | [] => acc
  | p :: ps =>
    if endpointCount acc p.1 < cap ∧ endpointCount acc p.2.1 < cap then
      greedySpec cap (acc ++ [p]) ps
    else greedySpec cap acc ps

/-- An HTTP failure (`HTTPException`): status code and detail string. -/
structure HTTPError where
  status : ℕ
  detail : String
deriving DecidableEq

/-- An `events` table row (the columns the modelled handlers touch).
`host_user_id` is nullable: anonymous events have `none`. -/
structure EventRow where
  id : String
  code : String
  host_user_id : Option String
  matching_mode : String
  matches_per_guest : ℕ
  matching_completed : Bool
  matches_revealed : Bool
deriving DecidableEq

/-- A `matches` table row (row ids are store-generated strings). -/
structure MatchRow where
  id : String
  event_id : String
  guest_a_id : String
  guest_b_id : String
  score : ℚ
deriving DecidableEq

/-- A `responses` table row as fetched by `run_matching`. -/
structure ResponseRow where
  guest_id : String
  question_id : String
  answer : String
deriving DecidableEq

/-- The external store: one list of rows per table (`matchRows` is the
`matches` table; `matches` is a reserved word in Lean). -/
structure DB where
  events : List EventRow
  guests : List Guest
  responses : List ResponseRow
  matchRows : List MatchRow
deriving DecidableEq

/-- Python `str.upper()` on one character, restricted to ASCII (event
codes and lookups in this system are ASCII). -/
def pyUpperChar (c : Char) : Char :=
  if 97 ≤ c.toNat ∧ c.toNat ≤ 122 then Char.ofNat (c.toNat - 32) else c

/-- Python `str.upper()` (ASCII fragment), as applied to every
`{code}` path parameter before the store lookup. -/
def pyUpper (s : String) : String := ⟨s.data.map pyUpperChar⟩

/-- The store query `events.select(...).eq("code", code_upper)` keeping
`data[0]`: the first row whose code equals the normalised code. -/
def findEvent (db : DB) (codeU : String) : Option EventRow :=
  db.events.find? (fun e => e.code == codeU)

/-- The guests of an event
(`guests.select(...).eq("event_id", event_id)`). -/
def guestsOf (db : DB) (eventId : String) : List Guest :=
  db.guests.filter (fun g => g.event_id == eventId)

/-- The matches of an event
(`matches.select("*").eq("event_id", event_id)`). -/
def matchesOf (db : DB) (eventId : String) : List MatchRow :=
  db.matchRows.filter (fun m => m.event_id == eventId)

/-- The host guard
`event.get("host_user_id") and event["host_user_id"] != current_user["id"]`:
true iff a host reference is present (store user ids are non-empty, so
Python truthiness is presence) and differs from the caller. -/
def hostMismatch (e : EventRow) (userId : String) : Bool :=
  match e.host_user_id with
  | none => false
  | some h => h != userId

/-- Python dict assignment on a per-guest answer dict. -/
def respAssign (m : RespMap) (q a : String) : RespMap :=
  if m.any (fun e => e.1 == q) then m.map (fun e => if e.1 == q then (q, a) else e)
  else m ++ [(q, a)]

/-- The response-organising loop of `run_matching` (lines 80–90): start
every guest at an empty dict, then fold the fetched rows, keeping only
rows whose guest id is a key of `guest_responses` (i.e. one of the
event's guest ids). -/
def organizeResponses (guest_ids : List String) (rows : List ResponseRow) :
    String → RespMap :=
  rows.foldl
    (fun f row =>
      if guest_ids.contains row.guest_id then
        fun gid =>
          if gid = row.guest_id
            then respAssign (f gid) row.question_id row.answer
            else f gid
      else f)
    (fun _ => [])

/-- The matches computed and inserted by a successful `run_matching`
(lines 74–150): the ranked pairs of the event's guests fed through the
greedy loop under `matches_per_guest`, each accepted pair becoming one
`matches` row (row ids are store-generated and modelled as `""`; no
claim inspects them). -/
def computedMatches (db : DB) (event : EventRow) : List MatchRow :=
  let guests := guestsOf db event.id
  let guest_ids := guests.map Guest.id
  let rows := db.responses.filter (fun r => guest_ids.contains r.guest_id)
  let resp := organizeResponses guest_ids rows
  let ranked := rankedPairs event.matching_mode resp guests
  (greedyAssign event.matches_per_guest ranked).map
    (fun p => ⟨"", event.id, p.1, p.2.1, p.2.2⟩)

/-- `run_matching` (matching.py lines 32–155): 404 on unknown code, 403
for a non-host caller on a host-owned event, 400 with fewer than two
guests; otherwise delete the event's matches, insert the newly computed
ones, set `matching_completed := true` and report the match count. -/
def run_matching (db : DB) (code : String) (userId : String) :
    Except HTTPError (DB × ℕ) :=
  match findEvent db (pyUpper code) with
  | none => .error ⟨404, "Event not found"⟩
  | some event =>
    if hostMismatch event userId then
      .error ⟨403, "Only the host can run matching"⟩
    else if (guestsOf db event.id).length < 2 then
      .error ⟨400, "Need at least 2 guests to run matching"⟩
    else
      let newMatches := computedMatches db event
      .ok ({ db with
              matchRows := db.matchRows.filter (fun m => !(m.event_id == event.id))
                ++ newMatches,
              events := db.events.map (fun e =>
                if e.id == event.id
                  then { e with matching_completed := true }
                  else e) },
           newMatches.length)

/-- `reveal_matches` (matching.py lines 203–234): 404 on unknown code,
403 for a non-host caller, 400 while `matching_completed` is false;
otherwise set `matches_revealed := true`. -/
def reveal_matches (db : DB) (code : String) (userId : String) :
    Except HTTPError DB :=
  match findEvent db (pyUpper code) with
  | none => .error ⟨404, "Event not found"⟩
  | some event =>
    if hostMismatch event userId then
      .error ⟨403, "Only the host can reveal matches"⟩
    else if !event.matching_completed then
      .error ⟨400, "Run matching first before revealing"⟩
    else
      .ok { db with events := db.events.map (fun e =>
        if e.id == event.id then { e with matches_revealed := true } else e) }

/-- The reply of `get_my_match`: `{match: null, message}` or the matched
counterpart's id and nickname with the match's score. -/
inductive MatchReply
  | noMatch (message : String)
  | found (guestId : String) (nickname : String) (score : ℚ)
deriving DecidableEq

/-- True iff `gid` is an endpoint of the match row (the
`guest_a_id.eq.{gid},guest_b_id.eq.{gid}` disjunctive filter). -/
def matchContains (m : MatchRow) (gid : String) : Bool :=
  m.guest_a_id == gid || m.guest_b_id == gid

/-- The other endpoint relative to `gid`
(`guest_b_id if guest_a_id == guest_id else guest_a_id`). -/
def counterpartId (m : MatchRow) (gid : String) : String :=
  if m.guest_a_id == gid then m.guest_b_id else m.guest_a_id

/-- `get_my_match` (matching.py lines 237–285): 404 on unknown code, 403
while `matches_revealed` is false (no host check — the handler takes no
caller identity at all); otherwise the first match having the guest as an
endpoint determines the reply, with explicit no-match replies when no row
matches or the counterpart guest record is gone. -/
def get_my_match (db : DB) (code : String) (guest_id : String) :
    Except HTTPError MatchReply :=
  match findEvent db (pyUpper code) with
  | none => .error ⟨404, "Event not found"⟩
  | some event =>
    if !event.matches_revealed then
      .error ⟨403, "Matches have not been revealed yet"⟩
    else
      match db.matchRows.filter (fun m =>
          m.event_id == event.id && matchContains m guest_id) with
      | [] => .ok (.noMatch "No match found")
      | m :: _ =>
        match db.guests.find? (fun g => g.id == counterpartId m guest_id) with
        | none => .ok (.noMatch "Match data unavailable")
        | some matched_guest =>
          .ok (.found matched_guest.id matched_guest.nickname m.score)

/-- `delete_match` (matching.py lines 288–319): 404 on unknown code, 403
for a non-host caller, 404 when no row of this event has the given match
id; otherwise remove the row(s). -/
def delete_match (db : DB) (code : String) (match_id : String)
    (userId : String) : Except HTTPError DB :=
  match findEvent db (pyUpper code) with
  | none => .error ⟨404, "Event not found"⟩
  | some event =>
    if hostMismatch event userId then
      .error ⟨403, "Only the host can delete matches"⟩
    else if (db.matchRows.filter (fun m =>
        m.id == match_id && m.event_id == event.id)).isEmpty then
      .error ⟨404, "Match not found"⟩
    else
      .ok { db with matchRows := db.matchRows.filter (fun m =>
        !(m.id == match_id && m.event_id == event.id)) }

/-- `create_manual_match` (matching.py lines 322–368): 404 on unknown
code, 403 for a non-host caller, 400 unless exactly two of the event's
guest rows carry the two given ids; otherwise insert one match with
score 1.0. -/
def create_manual_match (db : DB) (code : String)
    (guest_a_id guest_b_id : String) (userId : String) :
    Except HTTPError DB :=
  match findEvent db (pyUpper code) with
  | none => .error ⟨404, "Event not found"⟩
  | some event =>
    if hostMismatch event userId then
      .error ⟨403, "Only the host can create matches"⟩
    else if (db.guests.filter (fun g => g.event_id == event.id &&
        (g.id == guest_a_id || g.id == guest_b_id))).length ≠ 2 then
      .error ⟨400, "Invalid guest IDs"⟩
    else
      .ok { db with matchRows :=
        db.matchRows ++ [⟨"", event.id, guest_a_id, guest_b_id, 1⟩] }

/-- The alphabet of generated event codes
(`string.ascii_uppercase + string.digits`). -/
def codeAlphabet : List Char :=
  "ABCDEFGHIJKLMNOPQRSTUVWXYZ0123456789".data

/-- `generate_event_code` (events.py lines 17–19): `length` independent
draws from the alphabet; the random stream is modelled as an arbitrary
index sequence `pick`. -/
def generate_event_code (pick : ℕ → ℕ) (length : ℕ) : String :=
  ⟨(List.range length).map (fun i => codeAlphabet.getD (pick i % codeAlphabet.length) 'A')⟩

/-- The per-event flag invariant `matches_revealed ⇒ matching_completed`. -/
def FlagInv (db : DB) : Prop :=
  ∀ e ∈ db.events, e.matches_revealed = true → e.matching_completed = true

/-- One successful mutating operation of the matching router. -/
inductive MatchingStep (db db' : DB) : Prop
  | run (code userId : String) (n : ℕ)
      (h : run_matching db code userId = .ok (db', n)) : MatchingStep db db'
  | reveal (code userId : String)
      (h : reveal_matches db code userId = .ok db') : MatchingStep db db'
  | removeMatch (code match_id userId : String)
      (h : delete_match db code match_id userId = .ok db') : MatchingStep db db'
  | manual (code guest_a_id guest_b_id userId : String)
      (h : create_manual_match db code guest_a_id guest_b_id userId = .ok db') :
      MatchingStep db db'

/-- Concrete event fixture: completed not yet run, but already revealed
(exercising the preserved-reveal quirk). -/
def exEvent : EventRow := ⟨"e1", "CODE1", some "host1", "any", 1, false, true⟩

/-- Concrete store fixture: one event, two guests, no responses, one
stale match. -/
def exDB : DB :=
  ⟨[exEvent],
   [⟨"g1", "e1", "Ann", none, none⟩, ⟨"g2", "e1", "Ben", none, none⟩],
   [],
   [⟨"m0", "e1", "gX", "gY", 1⟩]⟩

/-- The store after `run_matching` on `exDB`. -/
def exDBAfterRun : DB :=
  ⟨[⟨"e1", "CODE1", some "host1", "any", 1, true, true⟩],
   [⟨"g1", "e1", "Ann", none, none⟩, ⟨"g2", "e1", "Ben", none, none⟩],
   [],
   [⟨"", "e1", "g1", "g2", 0⟩]⟩

/-! ## Theorems -/

theorem commonList_toFinset (a b : RespMap) :
    (((a.map Prod.fst).filter (fun q => (b.map Prod.fst).contains q)).dedup).toFinset
      = sharedQuestions a b := by
  classical
  ext q
  simp [sharedQuestions, List.mem_toFinset, List.mem_filter, List.mem_dedup]

theorem commonList_length (a b : RespMap) :
    (((a.map Prod.fst).filter (fun q => (b.map Prod.fst).contains q)).dedup).length
      = (sharedQuestions a b).card := by
  rw [← commonList_toFinset a b, List.toFinset_card_of_nodup (List.nodup_dedup _)]

theorem commonList_countP (a b : RespMap) :
    (((a.map Prod.fst).filter (fun q => (b.map Prod.fst).contains q)).dedup).countP
        (fun q => a.lookup q == b.lookup q) = agreeCount a b := by
  classical
  set L := ((a.map Prod.fst).filter (fun q => (b.map Prod.fst).contains q)).dedup with hL
  have hnd : L.Nodup := List.nodup_dedup _
  rw [List.countP_eq_length_filter]
  have hnd2 : (L.filter (fun q => a.lookup q == b.lookup q)).Nodup := hnd.filter _
  rw [← List.toFinset_card_of_nodup hnd2, List.toFinset_filter]
  rw [hL, commonList_toFinset a b]
  unfold agreeCount
  congr 1
  apply Finset.filter_congr
  intro q _
  simp

/-- C1: `calculate_similarity` returns 0 when either response map is empty
or the two maps share no question id; otherwise it returns the number of
common question ids answered identically divided by the number of common
question ids, and the result always lies in `[0, 1]`. -/
theorem C1_similarity_spec (a b : RespMap) :
    ((a = [] ∨ b = [] ∨ sharedQuestions a b = ∅) → calculate_similarity a b = 0) ∧
    (sharedQuestions a b ≠ ∅ →
      calculate_similarity a b =
        (agreeCount a b : ℚ) / ((sharedQuestions a b).card : ℚ)) ∧
    0 ≤ calculate_similarity a b ∧ calculate_similarity a b ≤ 1 := by
  classical
  by_cases h1 : a.isEmpty || b.isEmpty
  · have hsim : calculate_similarity a b = 0 := by
      simp only [calculate_similarity, h1, if_true]
    have hsh : sharedQuestions a b = ∅ := by
      rcases Bool.or_eq_true_iff.mp h1 with h | h
      · have : a = [] := List.isEmpty_iff.mp h
        simp [sharedQuestions, this]
      · have : b = [] := List.isEmpty_iff.mp h
        simp [sharedQuestions, this]
    exact ⟨fun _ => hsim, fun hne => absurd hsh hne, le_of_eq hsim.symm, hsim ▸ zero_le_one⟩
  · have hsim1 : calculate_similarity a b =
        (if ((a.map Prod.fst).filter (fun q => (b.map Prod.fst).contains q)).dedup.isEmpty
          then 0
          else ((((a.map Prod.fst).filter (fun q => (b.map Prod.fst).contains q)).dedup.countP
              (fun q => a.lookup q == b.lookup q) : ℚ) /
            ((((a.map Prod.fst).filter (fun q => (b.map Prod.fst).contains q)).dedup.length : ℕ) : ℚ))) := by
      simp only [calculate_similarity, h1, Bool.false_eq_true, if_false]
    by_cases h2 : ((a.map Prod.fst).filter (fun q => (b.map Prod.fst).contains q)).dedup.isEmpty
    · have hsim : calculate_similarity a b = 0 := by rw [hsim1, if_pos h2]
      have hsh : sharedQuestions a b = ∅ := by
        rw [← commonList_toFinset a b, List.isEmpty_iff.mp h2]
        rfl
      exact ⟨fun _ => hsim, fun hne => absurd hsh hne, le_of_eq hsim.symm, hsim ▸ zero_le_one⟩
    · have hsim : calculate_similarity a b =
          (agreeCount a b : ℚ) / ((sharedQuestions a b).card : ℚ) := by
        rw [hsim1, if_neg h2, commonList_countP a b, commonList_length a b]
      have hpos : (0 : ℚ) < ((sharedQuestions a b).card : ℚ) := by
        have : ((a.map Prod.fst).filter (fun q => (b.map Prod.fst).contains q)).dedup ≠ [] := by
          simpa [List.isEmpty_iff] using h2
        have hlen : 0 < (((a.map Prod.fst).filter (fun q => (b.map Prod.fst).contains q)).dedup).length :=
          List.length_pos.mpr this
        rw [commonList_length a b] at hlen
        exact_mod_cast hlen
      have hle : (agreeCount a b : ℚ) ≤ ((sharedQuestions a b).card : ℚ) := by
        have : agreeCount a b ≤ (sharedQuestions a b).card := by
          unfold agreeCount
          exact Finset.card_filter_le _ _
        exact_mod_cast this
      refine ⟨?_, fun _ => hsim, ?_, ?_⟩
      · rintro (h | h | h)
        · simp [h] at h1
        · simp [h] at h1
        · rw [hsim, h]
          simp
      · rw [hsim]
        positivity
      · rw [hsim]
        exact div_le_one_of_le₀ hle (le_of_lt hpos)

/-- Witness for C1 at concrete inputs: an empty map scores 0, and two maps
sharing `q1, q2` (agreeing on one) score `agree/common`. -/
theorem C1_similarity_spec_witness :
    calculate_similarity [] [("q1", "a")] = 0 ∧
    calculate_similarity [("q1", "a"), ("q2", "b")] [("q1", "a"), ("q2", "c"), ("q3", "z")]
      = (agreeCount [("q1", "a"), ("q2", "b")] [("q1", "a"), ("q2", "c"), ("q3", "z")] : ℚ)
        / ((sharedQuestions [("q1", "a"), ("q2", "b")]
              [("q1", "a"), ("q2", "c"), ("q3", "z")]).card : ℚ) :=
  ⟨(C1_similarity_spec [] [("q1", "a")]).1 (Or.inl rfl),
   (C1_similarity_spec [("q1", "a"), ("q2", "b")]
      [("q1", "a"), ("q2", "c"), ("q3", "z")]).2.1 (by decide)⟩

theorem acceptsCode_iff (w g : Option String) :
    ((w == some "any") || (w == g)) = true ↔ acceptsCode w g := by
  cases w with
  | none => cases g <;> simp [acceptsCode]
  | some x =>
    cases g with
    | none => simp [acceptsCode]
    | some y =>
      simp only [acceptsCode, Bool.or_eq_true, beq_iff_eq, Option.some.injEq]
      constructor
      · rintro (h | h)
        · exact Or.inl h
        · exact Or.inr h.symm
      · rintro (h | h)
        · exact Or.inl h
        · exact Or.inr h.symm

/-- C2 counterexample: in `preference_based` mode, a guest whose
`looking_for` column is NULL paired with a counterpart of present gender
and preference `"any"`: the claim's defaulting formula accepts the pair,
but `is_compatible` rejects it (`None == "any"` and `None == "male"` are
both false in the source). -/
theorem C2_preference_filter_counterexample :
    compatibleSpec "preference_based"
      ⟨"ga", "e1", "Gail", some "female", none⟩
      ⟨"gb", "e1", "Hugh", some "male", some "any"⟩ ∧
    is_compatible "preference_based"
      ⟨"ga", "e1", "Gail", some "female", none⟩
      ⟨"gb", "e1", "Hugh", some "male", some "any"⟩ = false :=
  ⟨fun _ => ⟨Or.inl rfl, Or.inl rfl⟩, by decide⟩

/-- C2 (amended): with `matching_mode` other than `preference_based`,
`is_compatible` accepts every pair; in `preference_based` mode it accepts
iff each direction accepts as the code computes it — a present `"any"`
preference accepts anything, another present preference accepts exactly a
counterpart whose gender is present and equal to it, and a NULL
`looking_for` accepts exactly a counterpart whose gender is also NULL
(the `.get` default `"any"` never fires, because store rows carry the
null column). -/
theorem C2_preference_filter_amended (mode : String) (a b : Guest) :
    (mode ≠ "preference_based" → is_compatible mode a b = true) ∧
    (is_compatible mode a b = true ↔
      (mode = "preference_based" →
        acceptsCode a.looking_for b.gender ∧
        acceptsCode b.looking_for a.gender)) := by
  constructor
  · intro h
    simp [is_compatible, h]
  · by_cases h : mode = "preference_based"
    · subst h
      simp only [is_compatible, bne_self_eq_false, Bool.false_eq_true, if_false,
        Bool.and_eq_true, forall_const]
      rw [acceptsCode_iff, acceptsCode_iff]
    · have hne : (mode != "preference_based") = true := by simpa using h
      simp [is_compatible, hne, h]

/-- Witness for C2 (amended): in mode `"any"` even a NULL-`looking_for`
pair is compatible, and in `preference_based` mode the spec's test vector
(A wants male / is female, B is male / wants any) is compatible. -/
theorem C2_preference_filter_amended_witness :
    is_compatible "any"
      ⟨"ga", "e1", "Gail", some "female", none⟩
      ⟨"gb", "e1", "Hugh", some "male", some "any"⟩ = true ∧
    is_compatible "preference_based"
      ⟨"g1", "e", "A", some "female", some "male"⟩
      ⟨"g2", "e", "B", some "male", some "any"⟩ = true :=
  ⟨(C2_preference_filter_amended "any" _ _).1 (by decide),
   (C2_preference_filter_amended "preference_based"
      ⟨"g1", "e", "A", some "female", some "male"⟩
      ⟨"g2", "e", "B", some "male", some "any"⟩).2.mpr
     (fun _ => ⟨Or.inr rfl, Or.inl rfl⟩)⟩

theorem combinations2_mem {α : Type} {p : α × α} :
    ∀ {l : List α}, p ∈ combinations2 l → p.1 ∈ l ∧ p.2 ∈ l := by
  intro l
  induction l with
  | nil => intro h; simp [combinations2] at h
  | cons x xs ih =>
    intro h
    simp only [combinations2, List.mem_append, List.mem_map] at h
    rcases h with ⟨y, hy, hp⟩ | h
    · subst hp
      exact ⟨List.mem_cons_self x xs, List.mem_cons_of_mem x hy⟩
    · rcases ih h with ⟨h1, h2⟩
      exact ⟨List.mem_cons_of_mem x h1, List.mem_cons_of_mem x h2⟩

theorem combinations2_fst_ne_snd {l : List Guest}
    (hnd : (l.map Guest.id).Nodup) :
    ∀ p ∈ combinations2 l, p.1.id ≠ p.2.id := by
  induction l with
  | nil => intro p hp; simp [combinations2] at hp
  | cons x xs ih =>
    simp only [List.map_cons, List.nodup_cons, List.mem_map] at hnd
    intro p hp
    simp only [combinations2, List.mem_append, List.mem_map] at hp
    rcases hp with ⟨y, hy, hp⟩ | hp
    · subst hp
      intro hid
      exact hnd.1 ⟨y, hy, hid.symm⟩
    · exact ih hnd.2 p hp

theorem combinations2_pairwise_idDisjoint {l : List Guest}
    (hnd : (l.map Guest.id).Nodup) :
    (combinations2 l).Pairwise idDisjoint := by
  induction l with
  | nil => exact List.Pairwise.nil
  | cons x xs ih =>
    simp only [List.map_cons, List.nodup_cons, List.mem_map] at hnd
    have hx : ∀ g ∈ xs, g.id ≠ x.id := fun g hg hid => hnd.1 ⟨g, hg, hid⟩
    have hxs := hnd.2
    have hpw : xs.Pairwise (fun a b => a.id ≠ b.id) := List.pairwise_map.mp hxs
    simp only [combinations2]
    refine List.pairwise_append.mpr ⟨?_, ih hxs, ?_⟩
    · rw [List.pairwise_map]
      refine List.Pairwise.imp_of_mem ?_ hpw
      intro a b ha hb hne
      rintro (⟨h1, h2⟩ | ⟨h1, h2⟩)
      · exact hne h2
      · exact hx b hb h1.symm
    · intro p hp q hq
      rcases List.mem_map.mp hp with ⟨y, hy, rfl⟩
      have h1 := (combinations2_mem hq).1
      rintro (⟨ha, hb⟩ | ⟨ha, hb⟩)
      · exact hx q.1 h1 ha.symm
      · exact hx q.2 (combinations2_mem hq).2 ha.symm

theorem keyBeq_iff {a b : String × String} : keyBeq a b = true ↔ a = b := by
  cases a; cases b
  simp [keyBeq, Prod.ext_iff]

theorem keyBeq_false_iff {a b : String × String} : keyBeq a b = false ↔ a ≠ b := by
  rw [← Bool.not_eq_true, not_iff_not]
  exact keyBeq_iff

theorem idDisjoint_symm : ∀ {p q : Guest × Guest}, idDisjoint p q → idDisjoint q p := by
  intro p q h
  rintro (⟨h1, h2⟩ | ⟨h1, h2⟩)
  · exact h (Or.inl ⟨h1.symm, h2.symm⟩)
  · exact h (Or.inr ⟨h2.symm, h1.symm⟩)

theorem dictAssign_fresh {d : SimTable} {k : String × String} {v : ℚ}
    (h : hasKey d k = false) : dictAssign d k v = d ++ [(k, v)] := by
  simp [dictAssign, h]

theorem hasKey_append {d1 d2 : SimTable} {k : String × String} :
    hasKey (d1 ++ d2) k = (hasKey d1 k || hasKey d2 k) := by
  simp [hasKey, List.any_append]

theorem hasKey_pair_false {k1 k2 k : String × String} {v1 v2 : ℚ}
    (h1 : k1 ≠ k) (h2 : k2 ≠ k) :
    hasKey [(k1, v1), (k2, v2)] k = false := by
  simp only [hasKey, List.any_cons, List.any_nil, Bool.or_false]
  rw [keyBeq_false_iff.mpr h1, keyBeq_false_iff.mpr h2]
  rfl

theorem hasKey_single_false {k1 k : String × String} {v1 : ℚ} (h1 : k1 ≠ k) :
    hasKey [(k1, v1)] k = false := by
  simp only [hasKey, List.any_cons, List.any_nil, Bool.or_false]
  exact keyBeq_false_iff.mpr h1

theorem simStep_foldl (mode : String) (resp : String → RespMap) :
    ∀ (ps : List (Guest × Guest)) (d : SimTable),
      ps.Pairwise idDisjoint →
      (∀ p ∈ ps, p.1.id ≠ p.2.id) →
      (∀ p ∈ ps, hasKey d (p.1.id, p.2.id) = false ∧
                 hasKey d (p.2.id, p.1.id) = false) →
      ps.foldl (simStep mode resp) d = d ++ simEntries mode resp ps := by
  intro ps
  induction ps with
  | nil => intro d _ _ _; simp [simEntries]
  | cons p ps ih =>
    intro d hpw hne hfresh
    rw [List.foldl_cons]
    have hpwtail := (List.pairwise_cons.mp hpw).2
    have hphead := (List.pairwise_cons.mp hpw).1
    have hnep : p.1.id ≠ p.2.id := hne p (List.mem_cons_self p ps)
    by_cases hc : is_compatible mode p.1 p.2 = true
    · have hk1 : hasKey d (p.1.id, p.2.id) = false :=
        (hfresh p (List.mem_cons_self p ps)).1
      have hk2 : hasKey d (p.2.id, p.1.id) = false :=
        (hfresh p (List.mem_cons_self p ps)).2
      have hk2' : hasKey (d ++ [((p.1.id, p.2.id),
          calculate_similarity (resp p.1.id) (resp p.2.id))]) (p.2.id, p.1.id) = false := by
        rw [hasKey_append, hk2, Bool.false_or]
        exact hasKey_single_false (fun h => hnep (congrArg Prod.fst h))
      have hstep : simStep mode resp d p =
          d ++ [((p.1.id, p.2.id), calculate_similarity (resp p.1.id) (resp p.2.id)),
                ((p.2.id, p.1.id), calculate_similarity (resp p.1.id) (resp p.2.id))] := by
        simp only [simStep, hc, if_true]
        rw [dictAssign_fresh hk1, dictAssign_fresh hk2']
        simp
      rw [hstep, ih _ hpwtail (fun q hq => hne q (List.mem_cons_of_mem p hq)) ?_]
      · simp only [simEntries, hc, if_true, List.append_assoc]
        rfl
      · intro q hq
        have hdisj : idDisjoint p q := hphead q hq
        have hq1 := (hfresh q (List.mem_cons_of_mem p hq)).1
        have hq2 := (hfresh q (List.mem_cons_of_mem p hq)).2
        constructor
        · rw [hasKey_append, hq1, Bool.false_or]
          apply hasKey_pair_false
          · intro h
            rw [Prod.ext_iff] at h
            exact hdisj (Or.inl ⟨h.1, h.2⟩)
          · intro h
            rw [Prod.ext_iff] at h
            exact hdisj (Or.inr ⟨h.2, h.1⟩)
        · rw [hasKey_append, hq2, Bool.false_or]
          apply hasKey_pair_false
          · intro h
            rw [Prod.ext_iff] at h
            exact hdisj (Or.inr ⟨h.1, h.2⟩)
          · intro h
            rw [Prod.ext_iff] at h
            exact hdisj (Or.inl ⟨h.2, h.1⟩)
    · have hstep : simStep mode resp d p = d := by
        simp only [simStep, hc, Bool.false_eq_true, if_false]
      rw [hstep, ih _ hpwtail (fun q hq => hne q (List.mem_cons_of_mem p hq))
          (fun q hq => hfresh q (List.mem_cons_of_mem p hq))]
      simp only [simEntries, hc, Bool.false_eq_true, if_false]

theorem buildSimilarities_eq (mode : String) (resp : String → RespMap)
    (guests : List Guest) (hnd : (guests.map Guest.id).Nodup) :
    buildSimilarities mode resp guests =
      simEntries mode resp (combinations2 guests) := by
  unfold buildSimilarities
  rw [simStep_foldl mode resp (combinations2 guests) []
      (combinations2_pairwise_idDisjoint hnd)
      (combinations2_fst_ne_snd hnd)
      (fun p _ => ⟨rfl, rfl⟩)]
  simp

theorem hasKey_simEntries (mode : String) (resp : String → RespMap) :
    ∀ (ps : List (Guest × Guest)) (k : String × String),
      hasKey (simEntries mode resp ps) k = true ↔
        ∃ p ∈ ps, is_compatible mode p.1 p.2 = true ∧
          ((p.1.id, p.2.id) = k ∨ (p.2.id, p.1.id) = k) := by
  intro ps
  induction ps with
  | nil =>
    intro k
    simp [simEntries, hasKey]
  | cons p ps ih =>
    intro k
    by_cases hc : is_compatible mode p.1 p.2 = true
    · simp only [simEntries, hc, if_true, hasKey, List.any_cons, Bool.or_eq_true,
        keyBeq_iff]
      rw [show (simEntries mode resp ps).any (fun e => keyBeq e.1 k)
            = hasKey (simEntries mode resp ps) k from rfl, ih k]
      constructor
      · rintro (h | h | ⟨q, hq, hcq, hk⟩)
        · exact ⟨p, List.mem_cons_self p ps, hc, Or.inl h⟩
        · exact ⟨p, List.mem_cons_self p ps, hc, Or.inr h⟩
        · exact ⟨q, List.mem_cons_of_mem p hq, hcq, hk⟩
      · rintro ⟨q, hq, hcq, hk⟩
        rcases List.mem_cons.mp hq with rfl | hq
        · rcases hk with h | h
          · exact Or.inl h
          · exact Or.inr (Or.inl h)
        · exact Or.inr (Or.inr ⟨q, hq, hcq, hk⟩)
    · simp only [simEntries, hc, Bool.false_eq_true, if_false]
      rw [ih k]
      constructor
      · rintro ⟨q, hq, hcq, hk⟩
        exact ⟨q, List.mem_cons_of_mem p hq, hcq, hk⟩
      · rintro ⟨q, hq, hcq, hk⟩
        rcases List.mem_cons.mp hq with rfl | hq
        · exact absurd hcq hc
        · exact ⟨q, hq, hcq, hk⟩

theorem dictGet_simEntries (mode : String) (resp : String → RespMap) :
    ∀ (ps : List (Guest × Guest)) (p : Guest × Guest),
      p ∈ ps → ps.Pairwise idDisjoint →
      (∀ q ∈ ps, q.1.id ≠ q.2.id) →
      is_compatible mode p.1 p.2 = true →
      dictGet (simEntries mode resp ps) (p.1.id, p.2.id)
        = calculate_similarity (resp p.1.id) (resp p.2.id) := by
  intro ps
  induction ps with
  | nil => intro p hp; exact absurd hp (List.not_mem_nil p)
  | cons q ps ih =>
    intro p hp hpw hne hc
    have hpwtail := (List.pairwise_cons.mp hpw).2
    have hphead := (List.pairwise_cons.mp hpw).1
    rcases List.mem_cons.mp hp with rfl | hp
    · simp only [simEntries, hc, if_true, dictGet, List.find?_cons]
      rw [show keyBeq (p.1.id, p.2.id) (p.1.id, p.2.id) = true from keyBeq_iff.mpr rfl]
      rfl
    · have hdisj : idDisjoint q p := hphead p hp
      have hk1 : keyBeq (q.1.id, q.2.id) (p.1.id, p.2.id) = false := by
        rw [keyBeq_false_iff]
        intro h
        rw [Prod.ext_iff] at h
        exact hdisj (Or.inl ⟨h.1, h.2⟩)
      have hk2 : keyBeq (q.2.id, q.1.id) (p.1.id, p.2.id) = false := by
        rw [keyBeq_false_iff]
        intro h
        rw [Prod.ext_iff] at h
        exact hdisj (Or.inr ⟨h.2, h.1⟩)
      by_cases hcq : is_compatible mode q.1 q.2 = true
      · simp only [simEntries, hcq, if_true, dictGet, List.find?_cons, hk1, hk2]
        exact ih p hp hpwtail (fun r hr => hne r (List.mem_cons_of_mem q hr)) hc
      · simp only [simEntries, hcq, Bool.false_eq_true, if_false]
        exact ih p hp hpwtail (fun r hr => hne r (List.mem_cons_of_mem q hr)) hc

theorem pairStep_foldl (sims : SimTable) :
    ∀ (ps : List (Guest × Guest)) (acc : List (String × String × ℚ)),
      ps.foldl (pairStep sims) acc =
        acc ++ (ps.filter (fun p => hasKey sims (p.1.id, p.2.id))).map
          (fun p => (p.1.id, p.2.id, dictGet sims (p.1.id, p.2.id))) := by
  intro ps
  induction ps with
  | nil => intro acc; simp
  | cons p ps ih =>
    intro acc
    rw [List.foldl_cons]
    by_cases hk : hasKey sims (p.1.id, p.2.id) = true
    · rw [show pairStep sims acc p
          = acc ++ [(p.1.id, p.2.id, dictGet sims (p.1.id, p.2.id))] by
            simp [pairStep, hk]]
      rw [ih]
      simp [List.filter_cons, hk]
    · rw [show pairStep sims acc p = acc by simp [pairStep, hk]]
      rw [ih]
      simp [List.filter_cons, hk]

theorem all_pairs_eq (mode : String) (resp : String → RespMap)
    (guests : List Guest) (hnd : (guests.map Guest.id).Nodup) :
    all_pairs mode resp guests = compatScored mode resp guests := by
  unfold all_pairs compatScored
  rw [pairStep_foldl, List.nil_append, buildSimilarities_eq mode resp guests hnd]
  have hpw := combinations2_pairwise_idDisjoint hnd
  have hne := combinations2_fst_ne_snd hnd
  have hforall :
      ∀ p ∈ combinations2 guests, ∀ q ∈ combinations2 guests,
        p ≠ q → idDisjoint p q :=
    fun p hp q hq hne' =>
      (List.Pairwise.forall (fun _ _ h => idDisjoint_symm h) hpw) hp hq hne'
  have hfil : ∀ p ∈ combinations2 guests,
      hasKey (simEntries mode resp (combinations2 guests)) (p.1.id, p.2.id)
        = is_compatible mode p.1 p.2 := by
    intro p hp
    by_cases hc : is_compatible mode p.1 p.2 = true
    · rw [hc, (hasKey_simEntries mode resp _ _).mpr ⟨p, hp, hc, Or.inl rfl⟩]
    · rw [Bool.eq_false_iff.mpr hc, ← Bool.not_eq_true, hasKey_simEntries]
      rintro ⟨q, hq, hcq, hk | hk⟩
      · by_cases hqp : q = p
        · subst hqp
          exact hc hcq
        · rw [Prod.ext_iff] at hk
          exact hforall q hq p hp hqp (Or.inl ⟨hk.1, hk.2⟩)
      · by_cases hqp : q = p
        · subst hqp
          rw [Prod.ext_iff] at hk
          exact hne q hq hk.2
        · rw [Prod.ext_iff] at hk
          exact hforall q hq p hp hqp (Or.inr ⟨hk.2, hk.1⟩)
  rw [List.filter_congr hfil]
  apply List.map_congr_left
  intro p hp
  have hp' := List.mem_filter.mp hp
  rw [dictGet_simEntries mode resp _ p hp'.1 hpw hne hp'.2]

theorem insertScoreDesc_perm (x : String × String × ℚ)
    (l : List (String × String × ℚ)) :
    List.Perm (insertScoreDesc x l) (x :: l) := by
  induction l with
  | nil => exact List.Perm.refl _
  | cons y ys ih =>
    by_cases h : y.2.2 ≤ x.2.2
    · rw [insertScoreDesc, if_pos h]
    · rw [insertScoreDesc, if_neg h]
      exact (ih.cons y).trans (List.Perm.swap x y ys)

theorem sortScoreDesc_perm (l : List (String × String × ℚ)) :
    List.Perm (sortScoreDesc l) l := by
  induction l with
  | nil => exact List.Perm.refl _
  | cons x xs ih =>
    rw [sortScoreDesc]
    exact (insertScoreDesc_perm x (sortScoreDesc xs)).trans (ih.cons x)

theorem insertScoreDesc_sorted {x : String × String × ℚ}
    {l : List (String × String × ℚ)}
    (h : l.Pairwise (fun a b => b.2.2 ≤ a.2.2)) :
    (insertScoreDesc x l).Pairwise (fun a b => b.2.2 ≤ a.2.2) := by
  induction l with
  | nil => simp [insertScoreDesc]
  | cons y ys ih =>
    rcases List.pairwise_cons.mp h with ⟨hy, hys⟩
    by_cases hle : y.2.2 ≤ x.2.2
    · rw [insertScoreDesc, if_pos hle]
      refine List.pairwise_cons.mpr ⟨?_, h⟩
      intro z hz
      rcases List.mem_cons.mp hz with rfl | hz
      · exact hle
      · exact le_trans (hy z hz) hle
    · rw [insertScoreDesc, if_neg hle]
      refine List.pairwise_cons.mpr ⟨?_, ih hys⟩
      intro z hz
      have hz' : z ∈ x :: ys := (insertScoreDesc_perm x ys).mem_iff.mp hz
      rcases List.mem_cons.mp hz' with rfl | hz'
      · exact le_of_not_le hle
      · exact hy z hz'

theorem sortScoreDesc_sorted (l : List (String × String × ℚ)) :
    (sortScoreDesc l).Pairwise (fun a b => b.2.2 ≤ a.2.2) := by
  induction l with
  | nil => exact List.Pairwise.nil
  | cons x xs ih =>
    rw [sortScoreDesc]
    exact insertScoreDesc_sorted ih

theorem filter_insertScoreDesc_ne {x : String × String × ℚ} {c : ℚ}
    (hx : x.2.2 ≠ c) (l : List (String × String × ℚ)) :
    (insertScoreDesc x l).filter (fun e => decide (e.2.2 = c))
      = l.filter (fun e => decide (e.2.2 = c)) := by
  induction l with
  | nil => simp [insertScoreDesc, hx]
  | cons y ys ih =>
    by_cases h : y.2.2 ≤ x.2.2
    · rw [insertScoreDesc, if_pos h]
      simp [List.filter_cons, hx]
    · rw [insertScoreDesc, if_neg h]
      simp only [List.filter_cons, ih]

theorem filter_insertScoreDesc_eq {x : String × String × ℚ} {c : ℚ}
    (hx : x.2.2 = c) :
    ∀ {l : List (String × String × ℚ)},
      l.Pairwise (fun a b => b.2.2 ≤ a.2.2) →
      (insertScoreDesc x l).filter (fun e => decide (e.2.2 = c))
        = x :: l.filter (fun e => decide (e.2.2 = c)) := by
  intro l
  induction l with
  | nil =>
    intro _
    simp [insertScoreDesc, hx]
  | cons y ys ih =>
    intro h
    rcases List.pairwise_cons.mp h with ⟨hy, hys⟩
    by_cases hle : y.2.2 ≤ x.2.2
    · rw [insertScoreDesc, if_pos hle]
      simp [List.filter_cons, hx]
    · have hyne : y.2.2 ≠ c := by
        intro hyc
        exact hle (by rw [hyc, ← hx])
      rw [insertScoreDesc, if_neg hle]
      simp only [List.filter_cons, decide_eq_true_eq, hyne, if_false, ih hys]

theorem sortScoreDesc_filter (c : ℚ) (l : List (String × String × ℚ)) :
    (sortScoreDesc l).filter (fun e => decide (e.2.2 = c))
      = l.filter (fun e => decide (e.2.2 = c)) := by
  induction l with
  | nil => rfl
  | cons x xs ih =>
    rw [sortScoreDesc]
    by_cases hx : x.2.2 = c
    · rw [filter_insertScoreDesc_eq hx (sortScoreDesc_sorted xs), ih,
        List.filter_cons]
      simp [hx]
    · rw [filter_insertScoreDesc_ne hx, ih, List.filter_cons]
      simp [hx]

/-- C3 (amended): over a guest list with distinct ids (store primary
keys) and any per-guest response maps, the ranked pair list of
`run_matching` is a permutation of `compatScored` — the list holding
exactly one scored entry per combination pair passing the compatibility
check as implemented (`is_compatible`), in enumeration order — so
pairs failing that check are never scored or listed; it is sorted by
score descending; and its entries of any fixed score keep the original
enumeration order of guest pairs (stable ties).  It is a pure function of
its inputs, hence identical across runs on the same input. -/
theorem C3_pair_ranker (mode : String) (resp : String → RespMap)
    (guests : List Guest) (hnd : (guests.map Guest.id).Nodup) :
    List.Perm (rankedPairs mode resp guests) (compatScored mode resp guests) ∧
    (rankedPairs mode resp guests).Pairwise (fun x y => y.2.2 ≤ x.2.2) ∧
    ∀ c : ℚ, (rankedPairs mode resp guests).filter (fun e => decide (e.2.2 = c))
        = (compatScored mode resp guests).filter (fun e => decide (e.2.2 = c)) := by
  unfold rankedPairs
  rw [all_pairs_eq mode resp guests hnd]
  exact ⟨sortScoreDesc_perm _, sortScoreDesc_sorted _,
    fun c => sortScoreDesc_filter c _⟩

/-- Witness for C3 on the concrete fixtures (ids distinct by computation),
in `preference_based` mode, with ties inspected at score 0. -/
theorem C3_pair_ranker_witness :
    List.Perm (rankedPairs "preference_based" exResp exGuests)
      (compatScored "preference_based" exResp exGuests) ∧
    (rankedPairs "preference_based" exResp exGuests).Pairwise
      (fun x y => y.2.2 ≤ x.2.2) ∧
    (rankedPairs "preference_based" exResp exGuests).filter
        (fun e => decide (e.2.2 = 0))
      = (compatScored "preference_based" exResp exGuests).filter
        (fun e => decide (e.2.2 = 0)) :=
  ⟨(C3_pair_ranker "preference_based" exResp exGuests (by decide)).1,
   (C3_pair_ranker "preference_based" exResp exGuests (by decide)).2.1,
   (C3_pair_ranker "preference_based" exResp exGuests (by decide)).2.2 0⟩

/-- C3 counterexample: two guests, the first with a NULL `looking_for`
column, in `preference_based` mode: their pair passes the Preference
Filter as the claim specifies it (NULL defaulted to `"any"`), yet the
program's ranked list is empty — the listed pairs are those passing
`is_compatible`, not the specified filter. -/
theorem C3_pair_ranker_counterexample :
    compatibleSpec "preference_based"
      ⟨"ga", "e1", "Gail", some "female", none⟩
      ⟨"gb", "e1", "Hugh", some "male", some "any"⟩ ∧
    rankedPairs "preference_based" (fun _ => [])
      [⟨"ga", "e1", "Gail", some "female", none⟩,
       ⟨"gb", "e1", "Hugh", some "male", some "any"⟩] = [] :=
  ⟨fun _ => ⟨Or.inl rfl, Or.inl rfl⟩, by decide⟩

theorem endpointCount_append_single (acc : List (String × String × ℚ))
    (p : String × String × ℚ) (gid : String) :
    endpointCount (acc ++ [p]) gid =
      endpointCount acc gid + ((if p.1 = gid then 1 else 0) +
        (if p.2.1 = gid then 1 else 0)) := by
  unfold endpointCount
  rw [List.countP_append, List.countP_append]
  simp only [List.countP_cons, List.countP_nil]
  by_cases h1 : p.1 = gid <;> by_cases h2 : p.2.1 = gid <;>
    simp [h1, h2] <;> omega

theorem pairsContaining_append_single (acc : List (String × String × ℚ))
    (p : String × String × ℚ) (gid : String) :
    pairsContaining (acc ++ [p]) gid =
      pairsContaining acc gid + (if p.1 = gid ∨ p.2.1 = gid then 1 else 0) := by
  unfold pairsContaining
  rw [List.countP_append]
  by_cases h : p.1 = gid ∨ p.2.1 = gid <;> simp [h]

theorem greedy_foldl_eq_spec (cap : ℕ) :
    ∀ (ps : List (String × String × ℚ)) (cnt : String → ℕ)
      (acc : List (String × String × ℚ)),
      (∀ gid, cnt gid = endpointCount acc gid) →
      (ps.foldl (greedyStep cap) (cnt, acc)).2 = greedySpec cap acc ps := by
  intro ps
  induction ps with
  | nil => intro cnt acc _; rfl
  | cons p ps ih =>
    intro cnt acc hcnt
    rw [List.foldl_cons, greedySpec]
    by_cases hcond : cnt p.1 < cap ∧ cnt p.2.1 < cap
    · have hcond' : endpointCount acc p.1 < cap ∧ endpointCount acc p.2.1 < cap := by
        rw [← hcnt p.1, ← hcnt p.2.1]
        exact hcond
      rw [if_pos hcond']
      have hstep : greedyStep cap (cnt, acc) p =
          ((fun gid => if gid = p.2.1
              then (if gid = p.1 then cnt gid + 1 else cnt gid) + 1
              else (if gid = p.1 then cnt gid + 1 else cnt gid)),
           acc ++ [p]) := by
        rw [greedyStep, if_pos hcond]
      rw [hstep]
      apply ih
      intro gid
      rw [endpointCount_append_single, ← hcnt gid]
      by_cases h1 : gid = p.1 <;> by_cases h2 : gid = p.2.1
      · rw [if_pos h2, if_pos h1, if_pos h1.symm, if_pos h2.symm]
      · rw [if_neg h2, if_pos h1, if_pos h1.symm, if_neg (fun h => h2 h.symm)]
      · rw [if_pos h2, if_neg h1, if_neg (fun h => h1 h.symm), if_pos h2.symm]
      · rw [if_neg h2, if_neg h1, if_neg (fun h => h1 h.symm), if_neg (fun h => h2 h.symm)]
        omega
    · have hcond' : ¬(endpointCount acc p.1 < cap ∧ endpointCount acc p.2.1 < cap) := by
        rw [← hcnt p.1, ← hcnt p.2.1]
        exact hcond
      rw [if_neg hcond']
      have hstep : greedyStep cap (cnt, acc) p = (cnt, acc) := by
        rw [greedyStep, if_neg hcond]
      rw [hstep]
      exact ih cnt acc hcnt

theorem greedy_foldl_cap (cap : ℕ) :
    ∀ (ps : List (String × String × ℚ)) (cnt : String → ℕ)
      (acc : List (String × String × ℚ)),
      (∀ gid, pairsContaining acc gid ≤ cnt gid) →
      (∀ gid, pairsContaining acc gid ≤ cap) →
      ∀ gid, pairsContaining ((ps.foldl (greedyStep cap) (cnt, acc)).2) gid ≤ cap := by
  intro ps
  induction ps with
  | nil => intro cnt acc _ hcap gid; exact hcap gid
  | cons p ps ih =>
    intro cnt acc hle hcap
    rw [List.foldl_cons]
    by_cases hcond : cnt p.1 < cap ∧ cnt p.2.1 < cap
    · have hstep : greedyStep cap (cnt, acc) p =
          ((fun gid => if gid = p.2.1
              then (if gid = p.1 then cnt gid + 1 else cnt gid) + 1
              else (if gid = p.1 then cnt gid + 1 else cnt gid)),
           acc ++ [p]) := by
        rw [greedyStep, if_pos hcond]
      rw [hstep]
      apply ih
      · intro gid
        rw [pairsContaining_append_single]
        by_cases hin : p.1 = gid ∨ p.2.1 = gid
        · rw [if_pos hin]
          have hcnt_ge : cnt gid + 1 ≤
              (if gid = p.2.1
                then (if gid = p.1 then cnt gid + 1 else cnt gid) + 1
                else (if gid = p.1 then cnt gid + 1 else cnt gid)) := by
            rcases hin with h | h
            · subst h
              by_cases h2 : p.1 = p.2.1 <;> simp [h2]
            · subst h
              by_cases h2 : p.2.1 = p.1 <;> simp [h2]
          calc pairsContaining acc gid + 1 ≤ cnt gid + 1 :=
                Nat.add_le_add_right (hle gid) 1
            _ ≤ _ := hcnt_ge
        · rw [if_neg hin]
          push_neg at hin
          have : (if gid = p.2.1
              then (if gid = p.1 then cnt gid + 1 else cnt gid) + 1
              else (if gid = p.1 then cnt gid + 1 else cnt gid)) = cnt gid := by
            rw [if_neg (fun h => hin.2 h.symm), if_neg (fun h => hin.1 h.symm)]
          rw [this]
          exact Nat.le_trans (hle gid) (Nat.le_refl _)
      · intro gid
        rw [pairsContaining_append_single]
        by_cases hin : p.1 = gid ∨ p.2.1 = gid
        · rw [if_pos hin]
          have hlt : cnt gid < cap := by
            rcases hin with h | h
            · subst h; exact hcond.1
            · subst h; exact hcond.2
          have := hle gid
          omega
        · rw [if_neg hin]
          exact hcap gid
    · have hstep : greedyStep cap (cnt, acc) p = (cnt, acc) := by
        rw [greedyStep, if_neg hcond]
      rw [hstep]
      exact ih cnt acc hle hcap

/-- C4: the greedy loop of `run_matching` equals the spec-side greedy
assignment — iterating the ranked pairs in order, starting every counter
at 0, accepting a pair iff both endpoints occur fewer than
`matches_per_guest` times among the previously accepted pairs, and
incrementing both endpoints on acceptance — and consequently no guest id
is an endpoint of more than `matches_per_guest` accepted pairs. -/
theorem C4_greedy_assignment (cap : ℕ) (pairs : List (String × String × ℚ)) :
    greedyAssign cap pairs = greedySpec cap [] pairs ∧
    ∀ gid, pairsContaining (greedyAssign cap pairs) gid ≤ cap := by
  constructor
  · exact greedy_foldl_eq_spec cap pairs (fun _ => 0) []
      (fun gid => by simp [endpointCount])
  · exact greedy_foldl_cap cap pairs (fun _ => 0) []
      (fun gid => by simp [pairsContaining])
      (fun gid => by simp [pairsContaining])

theorem find?_map_code (events : List EventRow) (codeU : String)
    (u : EventRow → EventRow) (hcode : ∀ e, (u e).code = e.code) :
    (events.map u).find? (fun e => e.code == codeU)
      = (events.find? (fun e => e.code == codeU)).map u := by
  rw [List.find?_map]
  have : ((fun e : EventRow => e.code == codeU) ∘ u)
      = (fun e : EventRow => e.code == codeU) := by
    funext e
    simp [Function.comp, hcode]
  rw [this]

theorem matchesOf_replace (rows newRows : List MatchRow) (eid : String)
    (hnew : ∀ m ∈ newRows, m.event_id = eid) :
    (rows.filter (fun m => !(m.event_id == eid)) ++ newRows).filter
        (fun m => m.event_id == eid) = newRows := by
  rw [List.filter_append]
  have h1 : (rows.filter (fun m => !(m.event_id == eid))).filter
      (fun m => m.event_id == eid) = [] := by
    rw [List.filter_filter]
    apply List.filter_eq_nil_iff.mpr
    intro m _
    by_cases h : m.event_id == eid <;> simp [h]
  have h2 : newRows.filter (fun m => m.event_id == eid) = newRows := by
    apply List.filter_eq_self.mpr
    intro m hm
    simp [hnew m hm]
  rw [h1, h2, List.nil_append]

theorem matchesOf_replace_other (rows newRows : List MatchRow)
    (eid eid' : String) (hne : eid' ≠ eid)
    (hnew : ∀ m ∈ newRows, m.event_id = eid) :
    (rows.filter (fun m => !(m.event_id == eid)) ++ newRows).filter
        (fun m => m.event_id == eid')
      = rows.filter (fun m => m.event_id == eid') := by
  rw [List.filter_append]
  have h2 : newRows.filter (fun m => m.event_id == eid') = [] := by
    apply List.filter_eq_nil_iff.mpr
    intro m hm
    simp [hnew m hm, hne]
    intro hc
    exact absurd hc.symm hne
  rw [h2, List.append_nil, List.filter_filter]
  apply List.filter_congr
  intro m _
  by_cases h : m.event_id == eid'
  · have : m.event_id = eid' := by simpa using h
    simp [h, this, hne]
  · simp [h]

theorem computedMatches_event_id (db : DB) (event : EventRow) :
    ∀ m ∈ computedMatches db event, m.event_id = event.id := by
  intro m hm
  unfold computedMatches at hm
  simp only [List.mem_map] at hm
  obtain ⟨p, _, rfl⟩ := hm
  rfl

/-- C5: a successful `run_matching` leaves the addressed event holding
exactly the newly computed matches (all previously stored matches of the
event are gone), does not touch any other event's matches, sets
`matching_completed` to true, and leaves `matches_revealed` exactly as it
was — in particular a `matches_revealed` that was true before a re-run is
still true afterwards. -/
theorem C5_run_matching_effects (db : DB) (code userId : String)
    (event : EventRow) (db' : DB) (n : ℕ)
    (hev : findEvent db (pyUpper code) = some event)
    (h : run_matching db code userId = .ok (db', n)) :
    matchesOf db' event.id = computedMatches db event ∧
    (∀ eid, eid ≠ event.id → matchesOf db' eid = matchesOf db eid) ∧
    (findEvent db' (pyUpper code)).map EventRow.matching_completed = some true ∧
    (findEvent db' (pyUpper code)).map EventRow.matches_revealed
      = some event.matches_revealed ∧
    (event.matches_revealed = true →
      (findEvent db' (pyUpper code)).map EventRow.matches_revealed = some true) := by
  unfold run_matching at h
  rw [hev] at h
  dsimp only [] at h
  by_cases hhost : hostMismatch event userId = true
  · rw [if_pos hhost] at h
    exact absurd h (by simp)
  · rw [if_neg hhost] at h
    by_cases hg : (guestsOf db event.id).length < 2
    · rw [if_pos hg] at h
      exact absurd h (by simp)
    · rw [if_neg hg] at h
      have hdb' : db' = { db with
          matchRows := db.matchRows.filter (fun m => !(m.event_id == event.id))
            ++ computedMatches db event,
          events := db.events.map (fun e =>
            if e.id == event.id
              then { e with matching_completed := true }
              else e) } := by
        cases h
        rfl
      subst hdb'
      have hfind : findEvent { db with
          matchRows := db.matchRows.filter (fun m => !(m.event_id == event.id))
            ++ computedMatches db event,
          events := db.events.map (fun e =>
            if e.id == event.id
              then { e with matching_completed := true }
              else e) } (pyUpper code)
          = some (if event.id == event.id
              then { event with matching_completed := true }
              else event) := by
        show (db.events.map _).find? _ = _
        rw [find?_map_code db.events (pyUpper code) _ ?_]
        · rw [show db.events.find? (fun e => e.code == pyUpper code) = some event from hev]
          rfl
        · intro e
          by_cases he : e.id == event.id <;> simp [he]
      refine ⟨?_, ?_, ?_, ?_, ?_⟩
      · exact matchesOf_replace db.matchRows (computedMatches db event) event.id
          (computedMatches_event_id db event)
      · intro eid hne
        exact matchesOf_replace_other db.matchRows (computedMatches db event)
          event.id eid hne (computedMatches_event_id db event)
      · rw [hfind]
        simp
      · rw [hfind]
        simp
      · intro hrev
        rw [hfind]
        simp [hrev]

/-- Witness for C5: re-running the matching on the concrete store replaces
the stale match with the computed pair, sets completion, and the reveal
flag that was true beforehand is still true. -/
theorem C5_run_matching_effects_witness :
    matchesOf exDBAfterRun exEvent.id = computedMatches exDB exEvent ∧
    (findEvent exDBAfterRun (pyUpper "code1")).map EventRow.matching_completed
      = some true ∧
    (findEvent exDBAfterRun (pyUpper "code1")).map EventRow.matches_revealed
      = some true :=
  ⟨(C5_run_matching_effects exDB "code1" "host1" exEvent exDBAfterRun 1
      (by decide) rfl).1,
   (C5_run_matching_effects exDB "code1" "host1" exEvent exDBAfterRun 1
      (by decide) rfl).2.2.1,
   (C5_run_matching_effects exDB "code1" "host1" exEvent exDBAfterRun 1
      (by decide) rfl).2.2.2.2 rfl⟩

/-- C6: every mutating operation of the matching router preserves the
per-event invariant `matches_revealed ⇒ matching_completed` (over a store
whose event ids are unique, as primary keys are): `reveal_matches` sets
the reveal flag only after checking completion, `run_matching` only ever
sets `matching_completed` to true, and no operation sets
`matching_completed` to false while `matches_revealed` is true. -/
theorem C6_flag_invariant (db db' : DB)
    (hnd : (db.events.map EventRow.id).Nodup)
    (hinv : FlagInv db) (hstep : MatchingStep db db') : FlagInv db' := by
  cases hstep with
  | run code userId n h =>
    unfold run_matching at h
    cases hfind : findEvent db (pyUpper code) with
    | none =>
      rw [hfind] at h
      exact absurd h (by simp)
    | some event =>
      rw [hfind] at h
      dsimp only [] at h
      by_cases hhost : hostMismatch event userId = true
      · rw [if_pos hhost] at h
        exact absurd h (by simp)
      · rw [if_neg hhost] at h
        by_cases hg : (guestsOf db event.id).length < 2
        · rw [if_pos hg] at h
          exact absurd h (by simp)
        · rw [if_neg hg] at h
          have hdb' : db'.events = db.events.map (fun e =>
              if e.id == event.id
                then { e with matching_completed := true }
                else e) := by
            cases h
            rfl
          intro e' he' hrev
          rw [hdb'] at he'
          obtain ⟨e, he, rfl⟩ := List.mem_map.mp he'
          by_cases hid : e.id == event.id
          · rw [if_pos hid] at hrev ⊢
          · rw [if_neg hid] at hrev ⊢
            exact hinv e he hrev
  | reveal code userId h =>
    unfold reveal_matches at h
    cases hfind : findEvent db (pyUpper code) with
    | none =>
      rw [hfind] at h
      exact absurd h (by simp)
    | some event =>
      rw [hfind] at h
      dsimp only [] at h
      by_cases hhost : hostMismatch event userId = true
      · rw [if_pos hhost] at h
        exact absurd h (by simp)
      · rw [if_neg hhost] at h
        by_cases hcomp : (!event.matching_completed) = true
        · rw [if_pos hcomp] at h
          exact absurd h (by simp)
        · rw [if_neg hcomp] at h
          have hcompleted : event.matching_completed = true := by
            simpa using hcomp
          have hmem : event ∈ db.events :=
            List.mem_of_find?_eq_some hfind
          have hdb' : db'.events = db.events.map (fun e =>
              if e.id == event.id
                then { e with matches_revealed := true }
                else e) := by
            cases h
            rfl
          intro e' he' hrev
          rw [hdb'] at he'
          obtain ⟨e, he, rfl⟩ := List.mem_map.mp he'
          by_cases hid : e.id == event.id
          · rw [if_pos hid] at hrev ⊢
            have : e = event :=
              List.inj_on_of_nodup_map hnd he hmem (by simpa using hid)
            rw [this]
            exact hcompleted
          · rw [if_neg hid] at hrev ⊢
            exact hinv e he hrev
  | removeMatch code match_id userId h =>
    unfold delete_match at h
    cases hfind : findEvent db (pyUpper code) with
    | none =>
      rw [hfind] at h
      exact absurd h (by simp)
    | some event =>
      rw [hfind] at h
      dsimp only [] at h
      by_cases hhost : hostMismatch event userId = true
      · rw [if_pos hhost] at h
        exact absurd h (by simp)
      · rw [if_neg hhost] at h
        by_cases hdel : (db.matchRows.filter (fun m =>
            m.id == match_id && m.event_id == event.id)).isEmpty = true
        · rw [if_pos hdel] at h
          exact absurd h (by simp)
        · rw [if_neg hdel] at h
          have hdb' : db'.events = db.events := by
            cases h
            rfl
          rw [FlagInv, hdb']
          exact hinv
  | manual code guest_a_id guest_b_id userId h =>
    unfold create_manual_match at h
    cases hfind : findEvent db (pyUpper code) with
    | none =>
      rw [hfind] at h
      exact absurd h (by simp)
    | some event =>
      rw [hfind] at h
      dsimp only [] at h
      by_cases hhost : hostMismatch event userId = true
      · rw [if_pos hhost] at h
        exact absurd h (by simp)
      · rw [if_neg hhost] at h
        by_cases hcount : (db.guests.filter (fun g => g.event_id == event.id &&
            (g.id == guest_a_id || g.id == guest_b_id))).length ≠ 2
        · rw [if_pos hcount] at h
          exact absurd h (by simp)
        · rw [if_neg hcount] at h
          have hdb' : db'.events = db.events := by
            cases h
            rfl
          rw [FlagInv, hdb']
          exact hinv

/-- Witness for C6: revealing on the already-revealed concrete store is a
step, and the invariant still holds afterwards. -/
theorem C6_flag_invariant_witness : FlagInv exDBAfterRun :=
  C6_flag_invariant exDBAfterRun exDBAfterRun (by decide)
    (by unfold FlagInv; decide)
    (MatchingStep.reveal "code1" "host1" rfl)

theorem reveal_matches_completed (db : DB) (code userId : String)
    (event : EventRow)
    (hev : findEvent db (pyUpper code) = some event)
    (hhost : hostMismatch event userId = false)
    (hcomp : event.matching_completed = true) :
    reveal_matches db code userId = .ok { db with events := db.events.map (fun e =>
      if e.id == event.id then { e with matches_revealed := true } else e) } := by
  unfold reveal_matches
  rw [hev]
  dsimp only []
  rw [if_neg (by simp [hhost]), if_neg (by simp [hcomp])]

theorem findEvent_after_flag_map (db : DB) (codeU : String)
    (u : EventRow → EventRow) (hcode : ∀ e, (u e).code = e.code)
    (gs : List Guest) (rs : List ResponseRow) (ms : List MatchRow) :
    findEvent ⟨db.events.map u, gs, rs, ms⟩ codeU
      = (findEvent db codeU).map u := by
  show (db.events.map u).find? (fun e => e.code == codeU) = _
  rw [find?_map_code db.events codeU u hcode]
  rfl

/-- C7: for an existing event whose caller passes the host check,
`reveal_matches` fails with a 400 precondition error iff
`matching_completed` is false; when completed it succeeds, sets
`matches_revealed` to true, and a second reveal also succeeds with
`matches_revealed` true both times. -/
theorem C7_reveal_idempotent (db : DB) (code userId : String)
    (event : EventRow)
    (hev : findEvent db (pyUpper code) = some event)
    (hhost : hostMismatch event userId = false) :
    ((∃ d, reveal_matches db code userId = .error d ∧ d.status = 400) ↔
      event.matching_completed = false) ∧
    (event.matching_completed = true →
      ∃ db', reveal_matches db code userId = .ok db' ∧
        (findEvent db' (pyUpper code)).map EventRow.matches_revealed
          = some true ∧
        ∃ db'', reveal_matches db' code userId = .ok db'' ∧
          (findEvent db'' (pyUpper code)).map EventRow.matches_revealed
            = some true) := by
  by_cases hcomp : event.matching_completed = true
  · have hok := reveal_matches_completed db code userId event hev hhost hcomp
    constructor
    · rw [hok]
      constructor
      · rintro ⟨d, hd, _⟩
        exact absurd hd (by simp)
      · intro hfalse
        rw [hcomp] at hfalse
        exact absurd hfalse (by simp)
    · intro _
      set u : EventRow → EventRow := fun e =>
        if e.id == event.id then { e with matches_revealed := true } else e with hu
      have hucode : ∀ e, (u e).code = e.code := by
        intro e
        rw [hu]
        by_cases he : e.id == event.id <;> simp [he]
      set db1 : DB := { db with events := db.events.map u } with hdb1
      have hfind1 : findEvent db1 (pyUpper code) = some (u event) := by
        rw [hdb1]
        show findEvent ⟨db.events.map u, db.guests, db.responses, db.matchRows⟩ _ = _
        rw [findEvent_after_flag_map db (pyUpper code) u hucode, hev]
        rfl
      have huev : u event = { event with matches_revealed := true } := by
        rw [hu]
        simp
      refine ⟨db1, hok, ?_, ?_⟩
      · rw [hfind1, huev]
        rfl
      · have hok2 := reveal_matches_completed db1 code userId (u event) hfind1
          (by rw [huev]; exact hhost) (by rw [huev]; exact hcomp)
        set u2 : EventRow → EventRow := fun e =>
          if e.id == (u event).id then { e with matches_revealed := true } else e with hu2
        have hu2code : ∀ e, (u2 e).code = e.code := by
          intro e
          rw [hu2]
          by_cases he : e.id == (u event).id <;> simp [he]
        refine ⟨_, hok2, ?_⟩
        have hfind2 : findEvent { db1 with events := db1.events.map u2 }
            (pyUpper code) = some (u2 (u event)) := by
          show findEvent ⟨db1.events.map u2, db1.guests, db1.responses, db1.matchRows⟩ _ = _
          rw [findEvent_after_flag_map db1 (pyUpper code) u2 hu2code, hfind1]
          rfl
        rw [hfind2, hu2]
        simp
  · have hcomp' : event.matching_completed = false := by
      simpa using hcomp
    have herr : reveal_matches db code userId
        = .error ⟨400, "Run matching first before revealing"⟩ := by
      unfold reveal_matches
      rw [hev]
      dsimp only []
      rw [if_neg (by simp [hhost]), if_pos (by simp [hcomp'])]
    constructor
    · rw [herr]
      constructor
      · intro _
        exact hcomp'
      · intro _
        exact ⟨⟨400, "Run matching first before revealing"⟩, rfl, rfl⟩
    · intro habs
      exact absurd habs hcomp

/-- Witness for C7 on the concrete store after a matching run (completed
and revealed): revealing succeeds, changes nothing further, and the
reveal flag reads true. -/
theorem C7_reveal_idempotent_witness :
    reveal_matches exDBAfterRun "code1" "host1" = .ok exDBAfterRun ∧
    (findEvent exDBAfterRun (pyUpper "code1")).map EventRow.matches_revealed
      = some true := by
  obtain ⟨db1, hok, hrev, _⟩ := (C7_reveal_idempotent exDBAfterRun "code1" "host1"
      ⟨"e1", "CODE1", some "host1", "any", 1, true, true⟩
      (by decide) (by decide)).2 (by decide)
  have hdb1 : db1 = exDBAfterRun := by
    have h2 := hok.symm.trans
      (show reveal_matches exDBAfterRun "code1" "host1" = .ok exDBAfterRun from rfl)
    cases h2
    rfl
  subst hdb1
  exact ⟨hok, hrev⟩

theorem matchFilter_eq (db : DB) (eid gid : String) :
    db.matchRows.filter (fun m => m.event_id == eid && matchContains m gid)
      = (matchesOf db eid).filter (fun m => matchContains m gid) := by
  unfold matchesOf
  rw [List.filter_filter]
  apply List.filter_congr
  intro m _
  rw [Bool.and_comm]

/-- C8: for an existing event, `get_my_match` fails with a 403 visibility
error iff `matches_revealed` is false (the handler takes no caller
identity, so there is no host check); once revealed it answers from the
event's matches having the guest as an endpoint: none → `{match: null}`,
otherwise the first such match determines the reply — missing counterpart
record → `{match: null}`, counterpart present → its id and nickname with
the match's score (so a guest with a unique match gets exactly that
match). -/
theorem C8_my_match_visibility (db : DB) (code gid : String)
    (event : EventRow)
    (hev : findEvent db (pyUpper code) = some event) :
    ((∃ d, get_my_match db code gid = .error d ∧ d.status = 403) ↔
      event.matches_revealed = false) ∧
    (event.matches_revealed = true →
      ((matchesOf db event.id).filter (fun m => matchContains m gid) = [] →
        get_my_match db code gid = .ok (.noMatch "No match found")) ∧
      (∀ m rest,
        (matchesOf db event.id).filter (fun m => matchContains m gid)
          = m :: rest →
        (db.guests.find? (fun g => g.id == counterpartId m gid) = none →
          get_my_match db code gid = .ok (.noMatch "Match data unavailable")) ∧
        (∀ g, db.guests.find? (fun g => g.id == counterpartId m gid) = some g →
          get_my_match db code gid = .ok (.found g.id g.nickname m.score)))) := by
  by_cases hrev : event.matches_revealed = true
  · have hform : get_my_match db code gid =
        (match (matchesOf db event.id).filter (fun m => matchContains m gid) with
         | [] => Except.ok (MatchReply.noMatch "No match found")
         | m :: _ =>
           match db.guests.find? (fun g => g.id == counterpartId m gid) with
           | none => Except.ok (MatchReply.noMatch "Match data unavailable")
           | some matched_guest =>
             Except.ok (.found matched_guest.id matched_guest.nickname m.score)) := by
      unfold get_my_match
      rw [hev]
      dsimp only []
      rw [if_neg (by simp [hrev]), matchFilter_eq]
    constructor
    · constructor
      · rintro ⟨d, hd, _⟩
        rw [hform] at hd
        cases hfil : (matchesOf db event.id).filter (fun m => matchContains m gid) with
        | nil =>
          rw [hfil] at hd
          exact absurd hd (by simp)
        | cons m rest =>
          rw [hfil] at hd
          dsimp only [] at hd
          cases hg : db.guests.find? (fun g => g.id == counterpartId m gid) with
          | none =>
            rw [hg] at hd
            exact absurd hd (by simp)
          | some g =>
            rw [hg] at hd
            exact absurd hd (by simp)
      · intro hfalse
        rw [hrev] at hfalse
        exact absurd hfalse (by simp)
    · intro _
      constructor
      · intro hfil
        rw [hform, hfil]
      · intro m rest hfil
        constructor
        · intro hg
          rw [hform, hfil]
          dsimp only []
          rw [hg]
        · intro g hg
          rw [hform, hfil]
          dsimp only []
          rw [hg]
  · have hrev' : event.matches_revealed = false := by simpa using hrev
    have herr : get_my_match db code gid
        = .error ⟨403, "Matches have not been revealed yet"⟩ := by
      unfold get_my_match
      rw [hev]
      dsimp only []
      rw [if_pos (by simp [hrev'])]
    exact ⟨⟨fun _ => hrev', fun _ => ⟨_, herr, rfl⟩⟩, fun habs => absurd habs hrev⟩

/-- Witness for C8 on the concrete store after the matching run: guest
`g1` is revealed its unique match, the counterpart `g2` named Ben with
score 0. -/
theorem C8_my_match_visibility_witness :
    get_my_match exDBAfterRun "code1" "g1"
      = .ok (.found "g2" "Ben" 0) := by
  have h := (C8_my_match_visibility exDBAfterRun "code1" "g1"
      ⟨"e1", "CODE1", some "host1", "any", 1, true, true⟩ (by decide)).2 (by decide)
  have h2 := (h.2 ⟨"", "e1", "g1", "g2", 0⟩ [] (by decide)).2
    ⟨"g2", "e1", "Ben", none, none⟩ (by decide)
  exact h2

theorem hostMismatch_iff (e : EventRow) (userId : String) :
    hostMismatch e userId = true ↔
      ∃ h, e.host_user_id = some h ∧ h ≠ userId := by
  unfold hostMismatch
  cases e.host_user_id <;> simp

/-- C9: `run_matching` fails with 404 exactly on an unknown (normalised)
event code; for an existing event it fails with 403 exactly when the event
has a host reference differing from the caller (with no host reference any
caller passes); with the host check passed it fails with 400 exactly when
fewer than two guests are present; and with at least two guests it always
succeeds — the handler never consults `matching_completed` or
`matches_revealed`, so re-running after completion is permitted. -/
theorem C9_run_matching_guards (db : DB) (code userId : String) :
    (findEvent db (pyUpper code) = none ↔
      run_matching db code userId = .error ⟨404, "Event not found"⟩) ∧
    ∀ event, findEvent db (pyUpper code) = some event →
      ((∃ h, event.host_user_id = some h ∧ h ≠ userId) ↔
        (∃ d, run_matching db code userId = .error d ∧ d.status = 403)) ∧
      (hostMismatch event userId = false →
        ((guestsOf db event.id).length < 2 ↔
          (∃ d, run_matching db code userId = .error d ∧ d.status = 400))) ∧
      (hostMismatch event userId = false →
        2 ≤ (guestsOf db event.id).length →
        ∃ db' n, run_matching db code userId = .ok (db', n)) := by
  cases hfind : findEvent db (pyUpper code) with
  | none =>
    have h404 : run_matching db code userId
        = .error ⟨404, "Event not found"⟩ := by
      unfold run_matching
      rw [hfind]
    exact ⟨⟨fun _ => h404, fun _ => rfl⟩,
      fun event hev => absurd hev (by simp)⟩
  | some ev =>
    have hbody : run_matching db code userId =
        (if hostMismatch ev userId = true then
          Except.error ⟨403, "Only the host can run matching"⟩
        else if (guestsOf db ev.id).length < 2 then
          Except.error ⟨400, "Need at least 2 guests to run matching"⟩
        else
          Except.ok ({ db with
              matchRows := db.matchRows.filter (fun m => !(m.event_id == ev.id))
                ++ computedMatches db ev,
              events := db.events.map (fun e =>
                if e.id == ev.id
                  then { e with matching_completed := true }
                  else e) },
            (computedMatches db ev).length)) := by
      unfold run_matching
      rw [hfind]
    constructor
    · constructor
      · intro habs
        exact absurd habs (by simp)
      · intro h404
        rw [hbody] at h404
        by_cases hhost : hostMismatch ev userId = true
        · rw [if_pos hhost] at h404
          exact absurd h404 (by simp)
        · rw [if_neg hhost] at h404
          by_cases hg : (guestsOf db ev.id).length < 2
          · rw [if_pos hg] at h404
            exact absurd h404 (by simp)
          · rw [if_neg hg] at h404
            exact absurd h404 (by simp)
    · intro event hev
      have hevv : event = ev := (Option.some.inj hev).symm
      subst hevv
      refine ⟨?_, ?_, ?_⟩
      · constructor
        · intro hex
          have hhost : hostMismatch event userId = true :=
            (hostMismatch_iff event userId).mpr hex
          rw [hbody, if_pos hhost]
          exact ⟨_, rfl, rfl⟩
        · rintro ⟨d, hd, hst⟩
          by_cases hhost : hostMismatch event userId = true
          · exact (hostMismatch_iff event userId).mp hhost
          · rw [hbody, if_neg hhost] at hd
            by_cases hg : (guestsOf db event.id).length < 2
            · rw [if_pos hg] at hd
              cases hd
              exact absurd hst (by decide)
            · rw [if_neg hg] at hd
              exact absurd hd (by simp)
      · intro hhost
        have hh : ¬ hostMismatch event userId = true := by simp [hhost]
        constructor
        · intro hlt
          rw [hbody, if_neg hh, if_pos hlt]
          exact ⟨_, rfl, rfl⟩
        · rintro ⟨d, hd, hst⟩
          rw [hbody, if_neg hh] at hd
          by_cases hg : (guestsOf db event.id).length < 2
          · exact hg
          · rw [if_neg hg] at hd
            exact absurd hd (by simp)
      · intro hhost hge
        have hh : ¬ hostMismatch event userId = true := by simp [hhost]
        have hg : ¬ (guestsOf db event.id).length < 2 := by omega
        rw [hbody, if_neg hh, if_neg hg]
        exact ⟨_, _, rfl⟩

/-- Witness for C9: on the concrete store whose event already has
`matching_completed = true`, a host-called re-run with two guests
succeeds (and recomputes the same single match). -/
theorem C9_run_matching_guards_witness :
    run_matching exDBAfterRun "code1" "host1" = .ok (exDBAfterRun, 1) := by
  obtain ⟨db', n, hok⟩ := ((C9_run_matching_guards exDBAfterRun "code1" "host1").2
    ⟨"e1", "CODE1", some "host1", "any", 1, true, true⟩ (by decide)).2.2
    (by decide) (by decide)
  have hpair := hok.symm.trans
    (show run_matching exDBAfterRun "code1" "host1" = .ok (exDBAfterRun, 1) from rfl)
  cases hpair
  exact hok

theorem char_toNat_ofNat {m : ℕ} (h : m < 55296) :
    (Char.ofNat m).toNat = m := by
  have hv : m.isValidChar := Or.inl (by omega)
  rw [Char.ofNat, dif_pos hv]
  simp [Char.ofNatAux, Char.toNat, UInt32.toNat, BitVec.ofNatLt]

theorem pyUpperChar_idem (c : Char) :
    pyUpperChar (pyUpperChar c) = pyUpperChar c := by
  unfold pyUpperChar
  by_cases h : 97 ≤ c.toNat ∧ c.toNat ≤ 122
  · rw [if_pos h]
    have ht : (Char.ofNat (c.toNat - 32)).toNat = c.toNat - 32 :=
      char_toNat_ofNat (by omega)
    rw [if_neg]
    rw [ht]
    omega
  · rw [if_neg h, if_neg h]

theorem pyUpper_idem (s : String) : pyUpper (pyUpper s) = pyUpper s := by
  unfold pyUpper
  simp only [List.map_map]
  congr 1
  apply List.map_congr_left
  intro c _
  exact pyUpperChar_idem c

theorem getD_mem_or_default {α : Type} :
    ∀ (l : List α) (i : ℕ) (d : α), l.getD i d = d ∨ l.getD i d ∈ l := by
  intro l
  induction l with
  | nil => intro i d; exact Or.inl rfl
  | cons x xs ih =>
    intro i d
    cases i with
    | zero => exact Or.inr (List.mem_cons_self x xs)
    | succ j =>
      rcases ih j d with h | h
      · exact Or.inl h
      · exact Or.inr (List.mem_cons_of_mem x h)

theorem pyUpperChar_fixes_alphabet : ∀ c ∈ codeAlphabet, pyUpperChar c = c := by
  decide

/-- C10: every modelled event-code handler observes only the uppercased
code — calling it with `code.upper()` gives the same result as with
`code` — because each handler normalises via `upper()` before the store
lookup and `upper` is idempotent; moreover every generated event code is
drawn from uppercase letters and digits, hence is itself a fixed point of
`upper`. -/
theorem C10_code_upper_invariance (db : DB)
    (code userId gid mid ga gb : String) :
    run_matching db (pyUpper code) userId = run_matching db code userId ∧
    reveal_matches db (pyUpper code) userId = reveal_matches db code userId ∧
    get_my_match db (pyUpper code) gid = get_my_match db code gid ∧
    delete_match db (pyUpper code) mid userId
      = delete_match db code mid userId ∧
    create_manual_match db (pyUpper code) ga gb userId
      = create_manual_match db code ga gb userId ∧
    ∀ pick len, pyUpper (generate_event_code pick len)
      = generate_event_code pick len := by
  refine ⟨?_, ?_, ?_, ?_, ?_, ?_⟩
  · unfold run_matching
    rw [pyUpper_idem]
  · unfold reveal_matches
    rw [pyUpper_idem]
  · unfold get_my_match
    rw [pyUpper_idem]
  · unfold delete_match
    rw [pyUpper_idem]
  · unfold create_manual_match
    rw [pyUpper_idem]
  · intro pick len
    unfold generate_event_code pyUpper
    simp only [List.map_map]
    congr 1
    apply List.map_congr_left
    intro i _
    show pyUpperChar (codeAlphabet.getD (pick i % codeAlphabet.length) 'A') = _
    rcases getD_mem_or_default codeAlphabet (pick i % codeAlphabet.length) 'A'
      with h | h
    · rw [h]
      exact pyUpperChar_fixes_alphabet 'A' (by decide)
    · exact pyUpperChar_fixes_alphabet _ h

/-- Witness for C10: a lowercase code addresses the same event as its
uppercased form on the concrete store, and a concretely generated code is
upper-fixed. -/
theorem C10_code_upper_invariance_witness :
    run_matching exDBAfterRun (pyUpper "code1") "host1"
      = run_matching exDBAfterRun "code1" "host1" ∧
    pyUpper (generate_event_code (fun i => i) 8)
      = generate_event_code (fun i => i) 8 :=
  ⟨(C10_code_upper_invariance exDBAfterRun "code1" "host1" "g" "m" "a" "b").1,
   (C10_code_upper_invariance exDBAfterRun "code1" "host1" "g" "m" "a" "b").2.2.2.2.2
     (fun i => i) 8⟩

end Maker
